import Mathlib

/-!
Verification of the imago helper layer (`imago/helpers.py`).

The development shallowly embeds the field-selection engine `get_fields`
together with its normalization helper `fwrap`, the list-endpoint pipeline
`PublicListEndpoint.get` and the detail-endpoint pipeline
`PublicDetailEndpoint.get`.

Modelling choices, following the source:

* A spec tree is a graph of Python objects.  Object identity matters
  (`fwrap` memoizes on `id(obj)`), and spec trees may be cyclic, so nodes
  live in an arena (`Arena`) and are addressed by index; `PyRef` is a
  possibly-`None` reference (`none` models Python's `None` value, whose
  identity never matters because `fwrap(None)` returns `None` both on the
  first and on any repeated visit).
* `fwrap` recurses along object references, so it is defined with explicit
  fuel (`fwrapRefF`); a fuel of `arena.length + 1` is always sufficient
  (proved below) and the fuel-free wrapper `fwrap` uses it.
* `get_fields` recurses on the dotted suffixes of the requested fields, so
  it is also defined with fuel (`getFieldsF`); `dotSum fields + 1` is
  always sufficient (proved below: the result is never the out-of-fuel
  marker) and `get_fields` uses it.
* Values constructed by `get_fields` (the dict `ret` and the fresh
  `{"fields": [...]}` wrappers) are freshly allocated, so their identities
  can never collide with anything already in the memo; they are modelled
  by the plain inductive `OutVal`, where `ref i` is a pass-through of the
  input object `i` (keeping its identity) and `wrapped`/`retDict` are
  freshly constructed dicts.
* Exceptions are modelled by `Except`.  `FieldKeyError` is a subclass of
  `KeyError` in the source; the embedding keeps them as separate
  constructors of `Err`, and each `except` clause of the source is
  translated by matching exactly the constructors that clause would catch.
* The Django/restless collaborators (queryset filtering and ordering, the
  serializer) are out of scope per the specification and enter the
  pipeline models as function parameters; the Django `Paginator` is
  embedded concretely (`numPages`, `paginatePage`) following its
  documented semantics (page `n` holds items `(n-1)*per_page` up to
  `n*per_page`; `end_index` is the 1-based index of the last item of the
  page within the whole result; an out-of-range page signals `EmptyPage`).
-/

set_option autoImplicit false

/-- A Python object forming a spec-tree node: an opaque non-dict leaf
(with a tag for distinguishing values and its Python truthiness), or a
dict whose values are references into the arena. -/
inductive PyObj : Type where
  | leaf (tag : String) (truthy : Bool)
  | dict (entries : List (String × Option Nat))
  deriving DecidableEq

/-- The arena of spec-tree nodes; a node's index is its Python identity. -/
abbrev Arena := List PyObj

/-- A reference to a Python value: `none` is the Python `None` value,
`some i` points at the arena object `i`. -/
abbrev PyRef := Option Nat

/-- A value produced by `get_fields`/`fwrap`:
`ref i` passes the input object `i` through unchanged (keeping its
identity), `wrapped l` is a freshly built `{"fields": l}` dict, and
`retDict l` is the freshly built merged mapping `ret` returned unchanged
by the final normalization (its values may be Python `None`). -/
inductive OutVal : Type where
  | ref (i : Nat)
  | wrapped (l : List (String × OutVal))
  | retDict (l : List (String × Option OutVal))

/-- The entry list of the merged mapping `ret` built by `get_fields`. -/
abbrev RetList := List (String × Option OutVal)

/-- First-match association-list lookup, the embedding of Python dict
indexing for our insertion-ordered entry lists. -/
def lookupA {α : Type} : List (String × α) → String → Option α
  | [], _ => none
  | (k, v) :: t, key => if k = key then some v else lookupA t key

/-- Python truthiness of an arena object: a leaf carries its own
truthiness, a dict is truthy iff non-empty. -/
def truthyObj (arena : Arena) (i : Nat) : Bool :=
  match arena[i]? with
  | some (.leaf _ t) => t
  | some (.dict es) => !es.isEmpty
  | none => false

/-- Python truthiness of a referenced value (`None` is falsy). -/
def truthyRef (arena : Arena) : PyRef → Bool
  | none => false
  | some j => truthyObj arena j

/-- `obj.get("fields")` truthiness test of `fwrap` on an input dict. -/
def truthyFieldsEs (arena : Arena) (es : List (String × Option Nat)) : Bool :=
  match lookupA es "fields" with
  | none => false
  | some r => truthyRef arena r

/-- The entry loop of `fwrap` over a dict's items: each value is wrapped
with the shared, threaded memo and dropped when the result is `None`.
`recur` is the recursive `fwrap` call (tied at `fwrapRefF`). -/
def fwrapEntries (recur : PyRef → Finset Nat → Option (Option OutVal × Finset Nat)) :
    Finset Nat → List (String × Option Nat) → Option (List (String × OutVal) × Finset Nat)
  | memo, [] => some ([], memo)
  | memo, (k, r) :: rest =>
    match recur r memo with
    | none => none
    | some (none, m1) => fwrapEntries recur m1 rest
    | some (some v, m1) =>
      match fwrapEntries recur m1 rest with
      | none => none
      | some (tail, m2) => some ((k, v) :: tail, m2)

/-- Fuelled embedding of `fwrap` applied to an input value (source lines
71-93).  The outer `none` is the out-of-fuel marker; the inner
`Option OutVal` is `fwrap`'s result, where `none` is the Python `None`
result.  The memo of visited identities is threaded explicitly, exactly
as the mutable `memo` set of the source. -/
def fwrapRefF : Nat → Arena → PyRef → Finset Nat → Option (Option OutVal × Finset Nat)
  | 0, _, _, _ => none
  | _fuel+1, _arena, none, memo => some (none, memo)
  | fuel+1, arena, some i, memo =>
    if i ∈ memo then some (none, memo)
    else
      match arena[i]? with
      | none => some (some (.ref i), insert i memo)
      | some (.leaf _ _) => some (some (.ref i), insert i memo)
      | some (.dict es) =>
        if es.isEmpty then some (some (.ref i), insert i memo)
        else if truthyFieldsEs arena es then some (some (.ref i), insert i memo)
        else
          match fwrapEntries (fun r' m' => fwrapRefF fuel arena r' m') (insert i memo) es with
          | none => none
          | some (kept, m2) =>
            some ((if kept.isEmpty then none else some (.wrapped kept)), m2)

/-- `fwrap` on an input value: fuel `arena.length + 1` always suffices
(theorem `fwrapRefF_isSome_of_card_lt` below), so the default branch of
`getD` is unreachable. -/
def fwrap (arena : Arena) (r : PyRef) (memo : Finset Nat) : Option OutVal × Finset Nat :=
  (fwrapRefF (arena.length + 1) arena r memo).getD (none, memo)

/-- Python truthiness of a `get_fields` output value. -/
def truthyOut (arena : Arena) : Option OutVal → Bool
  | none => false
  | some (.ref i) => truthyObj arena i
  | some (.wrapped _) => true
  | some (.retDict l) => !l.isEmpty

/-- `ret.get("fields")` truthiness test of the final `fwrap(ret)` call. -/
def truthyFieldsRet (arena : Arena) (ret : RetList) : Bool :=
  match lookupA ret "fields" with
  | none => false
  | some v => truthyOut arena v

/-- `fwrap` applied to one value of the merged mapping `ret` during the
final `fwrap(ret)` call.  A `ref i` value is the input object `i` passed
through earlier, so `fwrap` runs on it again with the shared memo (this
is where a repeated identity is dropped).  `wrapped` and `retDict` values
are freshly built dicts that already satisfy the pass-through test
(`wrapped` always carries a non-empty truthy `"fields"` list, `retDict`
is produced only for mappings that passed the same test), so `fwrap`
returns them unchanged; their fresh identities cannot occur in the memo. -/
def fwrapOut (arena : Arena) (memo : Finset Nat) : Option OutVal → Option OutVal × Finset Nat
  | none => (none, memo)
  | some (.ref i) => fwrap arena (some i) memo
  | some (.wrapped l) => (some (.wrapped l), memo)
  | some (.retDict l) => (some (.retDict l), memo)

/-- The entry loop of the final `fwrap(ret)` call: wrap each value with
the shared memo, dropping entries whose wrapped value is `None`. -/
def filterRet (arena : Arena) : Finset Nat → RetList → List (String × OutVal) × Finset Nat
  | memo, [] => ([], memo)
  | memo, (k, v) :: rest =>
    match fwrapOut arena memo v with
    | (none, m1) => filterRet arena m1 rest
    | (some w, m1) =>
      let (tail, m2) := filterRet arena m1 rest
      ((k, w) :: tail, m2)

/-- The final `fwrap(ret)` call of `get_fields` (source line 119): the
freshly built mapping `ret` passes through when empty or when its
`"fields"` key is truthy; otherwise its entries are filtered and, when
any survive, wrapped as `{"fields": [...]}`, else the result is `None`. -/
def fwrapRet (arena : Arena) (ret : RetList) : Option OutVal :=
  if ret.isEmpty then some (.retDict ret)
  else if truthyFieldsRet arena ret then some (.retDict ret)
  else
    match filterRet arena ∅ ret with
    | ([], _) => none
    | (kept, _) => some (.wrapped kept)

/-- The exceptions that can escape `get_fields`:
`fieldKeyError` is the source's `FieldKeyError`, `keyError` a plain
`KeyError` (its superclass), `typeError` the `TypeError` of subscripting
a non-dict, and `outOfFuel` the embedding's fuel marker (never returned,
see `get_fields_no_out_of_fuel`). -/
inductive Err : Type where
  | fieldKeyError (field : String)
  | keyError (key : String)
  | typeError
  | outOfFuel
  deriving DecidableEq

/-- Split a character list at its first `'.'`. -/
def splitOnceCh : List Char → Option (List Char × List Char)
  | [] => none
  | '.' :: rest => some ([], rest)
  | c :: rest => (splitOnceCh rest).map (fun p => (c :: p.1, p.2))

/-- `field.split(".", 1)` of the source: split a field at its first dot;
`none` when the field contains no dot. -/
def splitOnce (s : String) : Option (String × String) :=
  (splitOnceCh s.toList).map (fun p => (String.mk p.1, String.mk p.2))

/-- Number of dots in a string (the recursion measure of `get_fields`). -/
def dots (s : String) : Nat := s.toList.count '.'

/-- Total number of dots in a field list. -/
def dotSum (l : List String) : Nat := (l.map dots).sum

/-- Remove the first entry with the given key. -/
def eraseKey {α : Type} (k : String) : List (String × α) → List (String × α)
  | [] => []
  | (q, v) :: t => if q = k then t else (q, v) :: eraseKey k t

/-- Record one compound field under its prefix: the new suffix goes in
front of the suffixes already recorded for that prefix, and the group is
placed at the front, matching the right-to-left recursion of
`partitionFields` (so groups end up in first-occurrence order and each
group's suffixes in request order, as Python's insertion-ordered
`defaultdict(list)` produces). -/
def consGroup (p post : String) (g : List (String × List String)) :
    List (String × List String) :=
  (p, post :: ((lookupA g p).getD [])) :: eraseKey p g

/-- The partition loop of `get_fields` (source lines 98-103): fields
without a dot are concrete, fields with a dot are grouped by their
prefix, keeping suffix order. -/
def partitionFields : List String → List String × List (String × List String)
  | [] => ([], [])
  | f :: rest =>
    let pr := partitionFields rest
    match splitOnce f with
    | none => (f :: pr.1, pr.2)
    | some (p, post) => (pr.1, consGroup p post pr.2)

/-- `root[key]` of the source: subscripting `None` or a leaf raises
`TypeError`, a missing key raises a plain `KeyError`. -/
def childId (arena : Arena) (root : PyRef) (key : String) : Except Err PyRef :=
  match root with
  | none => .error .typeError
  | some i =>
    match arena[i]? with
    | some (.dict es) =>
      match lookupA es key with
      | some r => .ok r
      | none => .error (.keyError key)
    | _ => .error .typeError

/-- Python dict assignment `ret[key] = v` on an insertion-ordered entry
list: update in place when the key exists, append otherwise. -/
def insertAssoc (l : RetList) (k : String) (v : Option OutVal) : RetList :=
  if (lookupA l k).isSome then l.map (fun p => if p.1 = k then (k, v) else p)
  else l ++ [(k, v)]

/-- The concrete-field comprehension `{x: fwrap(root[x]) for x in
concrete}` (source line 106): each `fwrap` call gets a fresh memo; a
`KeyError` from `root[x]` is re-raised as `FieldKeyError` (source lines
107-108); a `TypeError` propagates unconverted. -/
def concreteGo (arena : Arena) (root : PyRef) : List String → RetList → Except Err RetList
  | [], acc => .ok acc
  | x :: rest, acc =>
    match childId arena root x with
    | .ok r => concreteGo arena root rest (insertAssoc acc x (fwrap arena r ∅).1)
    | .error (.keyError k) => .error (.fieldKeyError k)
    | .error e => .error e

/-- The subfield loop of `get_fields` (source lines 110-117): for each
prefix group, add the prefix to the prefetch set, recurse on the
sub-tree (`recur` is the recursive `get_fields` call), rewrite a
`FieldKeyError` raised by the recursion to carry the dotted path, let
any other exception (in particular the plain `KeyError` of a missing
prefix) propagate unchanged, and union in the recursive prefetch set
with every entry rewritten to `prefix ++ "__" ++ entry`. -/
def groupsGo (arena : Arena)
    (recur : PyRef → List String → Except Err (Finset String × Option OutVal))
    (root : PyRef) :
    List (String × List String) → Finset String → RetList →
      Except Err (Finset String × RetList)
  | [], pf, ret => .ok (pf, ret)
  | (key, posts) :: rest, pf, ret =>
    match childId arena root key with
    | .error e => .error e
    | .ok sub =>
      match recur sub posts with
      | .error (.fieldKeyError f) => .error (.fieldKeyError (key ++ "." ++ f))
      | .error e => .error e
      | .ok (pfI, specI) =>
        groupsGo arena recur root rest
          ((insert key pf) ∪ pfI.image (fun x => key ++ "__" ++ x))
          (insertAssoc ret key specI)

/-- Fuelled embedding of `get_fields` (source lines 56-119): partition
the fields, build the concrete entries, run the subfield loop, and
normalize the merged mapping with the final `fwrap` call. -/
def getFieldsF : Nat → Arena → PyRef → List String → Except Err (Finset String × Option OutVal)
  | 0, _, _, _ => .error .outOfFuel
  | fuel+1, arena, root, fields =>
    match concreteGo arena root (partitionFields fields).1 [] with
    | .error e => .error e
    | .ok ret0 =>
      match groupsGo arena (getFieldsF fuel arena) root (partitionFields fields).2 ∅ ret0 with
      | .error e => .error e
      | .ok (pf, ret) => .ok (pf, fwrapRet arena ret)

/-- `get_fields`: fuel `dotSum fields + 1` always suffices (theorem
`get_fields_no_out_of_fuel` below). -/
def get_fields (arena : Arena) (root : PyRef) (fields : List String) :
    Except Err (Finset String × Option OutVal) :=
  getFieldsF (dotSum fields + 1) arena root fields

/-- The prefetch set as the specification words it (step 4 of the Field
Projector algorithm): start empty; for each prefix group add the prefix
itself, then every entry of the recursive call's prefetch set rewritten
to `prefix ++ "__" ++ entry`; concrete fields contribute nothing.  This
definition follows the specification's wording and is compared against
the source-derived `get_fields` in the C2 theorem.  `recur` is the
recursive call, tied at `specPrefetchF`; `none` signals an invalid path
(the claim assumes none) or exhausted fuel. -/
def specGroups (arena : Arena) (recur : PyRef → List String → Option (Finset String))
    (root : PyRef) : List (String × List String) → Option (Finset String)
  | [] => some ∅
  | (key, posts) :: rest =>
    match childId arena root key with
    | .error _ => none
    | .ok sub =>
      match recur sub posts, specGroups arena recur root rest with
      | some inner, some others =>
        some ((insert key (inner.image (fun x => key ++ "__" ++ x))) ∪ others)
      | _, _ => none

/-- Fuelled recursion for `specGroups` over the prefix groups. -/
def specPrefetchF : Nat → Arena → PyRef → List String → Option (Finset String)
  | 0, _, _, _ => none
  | fuel+1, arena, root, fields =>
    specGroups arena (specPrefetchF fuel arena) root (partitionFields fields).2

/-- Specification-worded prefetch set at the same fuel policy as
`get_fields`. -/
def specPrefetch (arena : Arena) (root : PyRef) (fields : List String) :
    Option (Finset String) :=
  specPrefetchF (dotSum fields + 1) arena root fields

/-! ## The endpoint pipelines -/

/-- An abstract model item (the Django model instances are opaque to the
pipeline logic). -/
abbrev Item := Nat

/-- A request's query parameters, insertion-ordered with unique keys. -/
abbrev Params := List (String × String)

/-- `params[k]` when present. -/
def getParam (params : Params) (k : String) : Option String := lookupA params k

/-- `params.pop(k)` guarded by `if k in params`: the remaining parameter
set after removing the key. -/
def popParam (params : Params) (k : String) : Params :=
  params.filter (fun p => p.1 != k)

/-- Python's `s.split(",")` on character lists: split at every comma,
keeping empty pieces. -/
def splitCommaCh : List Char → List (List Char)
  | [] => [[]]
  | ',' :: rest => [] :: splitCommaCh rest
  | c :: rest =>
    match splitCommaCh rest with
    | [] => [[c]]
    | h :: t => (c :: h) :: t

/-- Python's `s.split(",")`. -/
def splitComma (s : String) : List String := (splitCommaCh s.toList).map String.mk

/-- One decimal digit's value. -/
def digitVal (c : Char) : Option Nat :=
  if '0' ≤ c ∧ c ≤ '9' then some (c.toNat - 48) else none

/-- Python's `int(s)` for the non-negative page parameter: all decimal
digits and non-empty, else a `ValueError`. -/
def parseNat? (s : String) : Option Nat :=
  match s.toList with
  | [] => none
  | l => l.foldl (fun acc c => match acc, digitVal c with
      | some a, some d => some (a * 10 + d)
      | _, _ => none) (some 0)

/-- Django `Paginator.num_pages`: ceiling division, at least one page
(an empty result still has page 1). -/
def numPages (total perPage : Nat) : Nat :=
  if total = 0 then 1 else (total + perPage - 1) / perPage

/-- Django `Paginator(data, per_page).page(page)`: `none` models the
`EmptyPage` exception for an out-of-range page number; otherwise the
page's items together with `end_index()`, the 1-based index of the last
item of the page within the whole result list. -/
def paginatePage {α : Type} (items : List α) (perPage page : Nat) :
    Option (List α × Nat) :=
  if 1 ≤ page ∧ page ≤ numPages items.length perPage then
    some ((items.drop ((page - 1) * perPage)).take perPage,
      if page = numPages items.length perPage then items.length else page * perPage)
  else none

/-- Errors escaping the endpoint handlers: `http` is a raised
`HttpError(code, msg)` (a structured response), `uncaught` an exception
that propagates out of the handler unhandled, `valueErr` the
`ValueError` of `int()` on a malformed page parameter, and
`doesNotExist` the data layer's not-found signal on the detail
endpoint. -/
inductive PipelineErr : Type where
  | http (code : Nat) (msg : String)
  | uncaught (e : Err)
  | valueErr
  | doesNotExist
  deriving DecidableEq

/-- The `meta` dictionary of a list response (source lines 266-272). -/
structure ListMeta where
  count : Nat
  page : Nat
  perPage : Nat
  maxPage : Nat
  totalCount : Nat
  deriving DecidableEq

/-- `PublicListEndpoint.get` (source lines 222-280) composed with the
`cachebusterable` decorator (source lines 122-136).  The queryset
collaborators are parameters: `filt` for `self.filter` (equality
filtering on the remaining parameters), `sortf` for `self.sort`, `ser`
for the `serialize` call with the pruned spec; `prefetch_related` does
not change the items and is dropped.  The step order follows the
source: strip the cache buster, pop `page`/`sort_by`/`fields`, filter,
sort, paginate (404 on `EmptyPage`), run `get_fields` (400 naming the
field on `FieldKeyError`, generic 400 on a plain `KeyError`), then
assemble the meta dictionary and serialized results. -/
def listGet {β : Type} (perPage : Nat) (defaultFields : List String)
    (arena : Arena) (root : PyRef)
    (filt : Params → List Item → List Item)
    (sortf : List String → List Item → List Item)
    (ser : Item → Option OutVal → β)
    (data0 : List Item) (params0 : Params) :
    Except PipelineErr (ListMeta × List β) :=
  let params1 := popParam params0 "_"
  let pageRes : Except PipelineErr Nat :=
    match getParam params1 "page" with
    | none => .ok 1
    | some s =>
      match parseNat? s with
      | some n => .ok n
      | none => .error .valueErr
  match pageRes with
  | .error e => .error e
  | .ok page =>
    let params2 := popParam params1 "page"
    let sortBy : List String :=
      match getParam params2 "sort_by" with
      | none => []
      | some s => splitComma s
    let params3 := popParam params2 "sort_by"
    let fields : List String :=
      match getParam params3 "fields" with
      | none => defaultFields
      | some s => splitComma s
    let params4 := popParam params3 "fields"
    let data1 := filt params4 data0
    let data2 := sortf sortBy data1
    match paginatePage data2 perPage page with
    | none => .error (.http 404 "No such page (heh, literally - its out of bounds)")
    | some (pageItems, endIdx) =>
      match get_fields arena root fields with
      | .error (.fieldKeyError f) =>
        .error (.http 400 ("Error: You\x27ve asked for a field (" ++ f ++
          ") that is invalid. Check the docs for this model."))
      | .error (.keyError k) =>
        .error (.http 400 ("Error: Invalid field: \x27" ++ k ++ "\x27"))
      | .error e => .error (.uncaught e)
      | .ok (_, config) =>
        .ok ({ count := pageItems.length, page := page, perPage := perPage,
               maxPage := endIdx, totalCount := data2.length },
             pageItems.map (fun x => ser x config))

/-- `PublicDetailEndpoint.get` (source lines 313-327) composed with the
`cachebusterable` decorator.  Note that, unlike the list endpoint, the
`get_fields` call is not wrapped in any `try`/`except`: every exception
it raises propagates out of the handler (`PipelineErr.uncaught`).
`getter` models `self.model.objects...get(pk=pk)`, returning `none` for
the data layer's not-found signal. -/
def detailGet {β : Type} (defaultFields : List String) (arena : Arena) (root : PyRef)
    (getter : Nat → Option Item) (ser : Item → Option OutVal → β)
    (pk : Nat) (params0 : Params) : Except PipelineErr β :=
  let params1 := popParam params0 "_"
  let fields : List String :=
    match getParam params1 "fields" with
    | none => defaultFields
    | some s => splitComma s
  match get_fields arena root fields with
  | .error e => .error (.uncaught e)
  | .ok (_, config) =>
    match getter pk with
    | none => .error .doesNotExist
    | some obj => .ok (ser obj config)

/-! ## Concrete spec trees used to instantiate the theorems -/

/-- A root with one relation `a` holding two distinct leaves `b`, `c`. -/
def exArena : Arena :=
  [.dict [("a", some 1)], .dict [("b", some 2), ("c", some 3)],
   .leaf "B" true, .leaf "C" true]

/-- A three-level chain `a.b.c` ending in a leaf. -/
def exArenaDeep : Arena :=
  [.dict [("a", some 1)], .dict [("b", some 2)], .dict [("c", some 3)],
   .leaf "L" true]

/-- A root with a single concrete field `x`. -/
def exArenaFlat : Arena := [.dict [("x", some 1)], .leaf "L" true]

/-- A self-referential spec tree: the root node holds itself under
`self`. -/
def cycArena : Arena := [.dict [("self", some 0), ("name", some 1)], .leaf "n" true]

/-- A root whose only field maps to the Python `None` value. -/
def exArenaNone : Arena := [.dict [("a", none)]]

/-- A root with a truthy top-level field literally named `fields`. -/
def exArenaFields : Arena := [.dict [("fields", some 1)], .leaf "x" true]

/-! ## Basic lemmas about splitting and dot counting -/

theorem toList_mk (l : List Char) : (String.mk l).toList = l := rfl

theorem mk_toList (s : String) : String.mk s.toList = s := by cases s; rfl

theorem splitOnceCh_some {l : List Char} {p : List Char × List Char}
    (h : splitOnceCh l = some p) : l = p.1 ++ '.' :: p.2 ∧ '.' ∉ p.1 := by
  induction l generalizing p with
  | nil => simp [splitOnceCh] at h
  | cons c rest ih =>
    by_cases hc : c = '.'
    · subst hc
      have : p = ([], rest) := by
        have := h.symm.trans (show splitOnceCh ('.' :: rest) = some ([], rest) from rfl)
        exact (Option.some.injEq _ _ ▸ this).symm ▸ rfl
      subst this
      simp
    · have hh : (splitOnceCh rest).map (fun q => (c :: q.1, q.2)) = some p := by
        rw [← h]; simp [splitOnceCh, hc]
      rw [Option.map_eq_some'] at hh
      obtain ⟨q, hq, hf⟩ := hh
      obtain ⟨hrest, hnq⟩ := ih hq
      have h1 : p.1 = c :: q.1 := by rw [← hf]
      have h2 : p.2 = q.2 := by rw [← hf]
      constructor
      · rw [h1, h2, hrest]; simp
      · rw [h1]
        simp only [List.mem_cons, not_or]
        exact ⟨fun hh2 => hc hh2.symm, hnq⟩

theorem splitOnceCh_append {a : List Char} (b : List Char) (h : '.' ∉ a) :
    splitOnceCh (a ++ '.' :: b) = some (a, b) := by
  induction a with
  | nil => simp [splitOnceCh]
  | cons c t ih =>
    have hc : c ≠ '.' := by intro hcc; exact h (by simp [hcc])
    have ht : '.' ∉ t := fun hm => h (by simp [hm])
    simp [splitOnceCh, hc, ih ht]

theorem splitOnceCh_none {l : List Char} : splitOnceCh l = none ↔ '.' ∉ l := by
  induction l with
  | nil => simp [splitOnceCh]
  | cons c rest ih =>
    by_cases hc : c = '.'
    · subst hc; simp [splitOnceCh]
    · simp only [splitOnceCh, hc, Option.map_eq_none', ih, List.mem_cons, not_or]
      constructor
      · exact fun hr => ⟨fun hh => hc hh.symm, hr⟩
      · exact fun hr => hr.2

theorem toList_append_dot (key rest : String) :
    (key ++ "." ++ rest).toList = key.toList ++ '.' :: rest.toList := by
  show (key ++ "." ++ rest).data = key.data ++ '.' :: rest.data
  rw [String.data_append, String.data_append]
  simp [show ".".data = ['.'] from rfl]

theorem splitOnce_append {key : String} (rest : String) (h : '.' ∉ key.toList) :
    splitOnce (key ++ "." ++ rest) = some (key, rest) := by
  unfold splitOnce
  rw [toList_append_dot, splitOnceCh_append _ h]
  simp [mk_toList]

theorem dots_append {key : String} (rest : String) (h : '.' ∉ key.toList) :
    dots (key ++ "." ++ rest) = dots rest + 1 := by
  unfold dots
  rw [toList_append_dot, List.count_append, List.count_cons]
  rw [List.count_eq_zero.mpr h]
  simp

theorem splitOnce_none_iff {s : String} : splitOnce s = none ↔ '.' ∉ s.toList := by
  unfold splitOnce
  rw [Option.map_eq_none']
  exact splitOnceCh_none

theorem dots_eq_zero_of_splitOnce_none {s : String} (h : splitOnce s = none) :
    dots s = 0 :=
  List.count_eq_zero.mpr (splitOnce_none_iff.mp h)

theorem splitOnce_some {s p rest : String} (h : splitOnce s = some (p, rest)) :
    dots s = dots rest + 1 ∧ '.' ∉ p.toList := by
  unfold splitOnce at h
  rw [Option.map_eq_some'] at h
  obtain ⟨q, hq, hf⟩ := h
  have h1 : p = String.mk q.1 := by
    have := congrArg Prod.fst hf; exact this.symm
  have h2 : rest = String.mk q.2 := by
    have := congrArg Prod.snd hf; exact this.symm
  obtain ⟨hl, hnq⟩ := splitOnceCh_some hq
  subst h1; subst h2
  refine ⟨?_, by rw [toList_mk]; exact hnq⟩
  unfold dots
  rw [hl, List.count_append, List.count_cons, List.count_eq_zero.mpr hnq]
  simp [toList_mk]

/-! ## The recursion measure of `get_fields` -/

/-- Weight of a prefix-group list: dots in all recorded suffixes plus the
number of suffixes (each compound field contributed one removed dot). -/
def groupsDots (g : List (String × List String)) : Nat :=
  (g.map (fun q => dotSum q.2 + q.2.length)).sum

theorem eraseKey_mem {α : Type} {k : String} {x : String × α} :
    ∀ {g : List (String × α)}, x ∈ eraseKey k g → x ∈ g := by
  intro g
  induction g with
  | nil => simp [eraseKey]
  | cons q t ih =>
    obtain ⟨qk, qv⟩ := q
    by_cases hq : qk = k
    · simp [eraseKey, hq]
      exact fun h => Or.inr h
    · simp only [eraseKey, hq, if_false, List.mem_cons]
      rintro (h | h)
      · exact Or.inl h
      · exact Or.inr (ih h)

theorem groupsDots_lookup_le {p : String} :
    ∀ {g : List (String × List String)},
      dotSum ((lookupA g p).getD []) + ((lookupA g p).getD []).length +
        groupsDots (eraseKey p g) ≤ groupsDots g := by
  intro g
  induction g with
  | nil => simp [lookupA, eraseKey, groupsDots, dotSum]
  | cons q t ih =>
    obtain ⟨qk, qv⟩ := q
    by_cases hq : qk = p
    · subst hq
      simp only [lookupA, eraseKey, eq_self_iff_true, if_true, Option.getD_some,
        groupsDots, List.map_cons, List.sum_cons]
      omega
    · simp only [lookupA, eraseKey, hq, if_false, groupsDots, List.map_cons,
        List.sum_cons]
      have := ih
      simp only [groupsDots] at this
      omega

theorem groupsDots_consGroup {p post : String} {g : List (String × List String)} :
    groupsDots (consGroup p post g) ≤ dots post + 1 + groupsDots g := by
  unfold consGroup
  simp only [groupsDots, List.map_cons, List.sum_cons, dotSum, List.map,
    List.sum_cons, List.length_cons]
  have h := groupsDots_lookup_le (p := p) (g := g)
  simp only [groupsDots, dotSum] at h ⊢
  omega

theorem partition_weight (fields : List String) :
    groupsDots (partitionFields fields).2 ≤ dotSum fields := by
  induction fields with
  | nil => simp [partitionFields, groupsDots, dotSum]
  | cons f rest ih =>
    rcases hs : splitOnce f with _ | pp
    · simp only [partitionFields, hs]
      have : dotSum (f :: rest) = dots f + dotSum rest := by simp [dotSum]
      omega
    · obtain ⟨p, post⟩ := pp
      simp only [partitionFields, hs]
      have hd := (splitOnce_some hs).1
      have h1 := @groupsDots_consGroup p post (partitionFields rest).2
      have : dotSum (f :: rest) = dots f + dotSum rest := by simp [dotSum]
      omega

theorem partition_posts_nonempty {fields : List String} {k : String}
    {ps : List String} (h : (k, ps) ∈ (partitionFields fields).2) : ps ≠ [] := by
  induction fields with
  | nil => simp [partitionFields] at h
  | cons f rest ih =>
    rcases hs : splitOnce f with _ | pp
    · rw [partitionFields, hs] at h
      exact ih h
    · obtain ⟨p, post⟩ := pp
      rw [partitionFields, hs] at h
      simp only [consGroup, List.mem_cons] at h
      rcases h with h | h
      · have : ps = post :: ((lookupA (partitionFields rest).2 p).getD []) := by
          have := congrArg Prod.snd h ; exact this
        simp [this]
      · exact ih (eraseKey_mem h)

theorem member_weight {g : List (String × List String)} {k : String}
    {ps : List String} (h : (k, ps) ∈ g) : dotSum ps + ps.length ≤ groupsDots g := by
  have hm : dotSum ps + ps.length ∈ g.map (fun q => dotSum q.2 + q.2.length) :=
    List.mem_map_of_mem _ h
  exact List.single_le_sum (fun x _ => Nat.zero_le x) _ hm

theorem posts_dots_lt {fields : List String} {k : String} {ps : List String}
    (h : (k, ps) ∈ (partitionFields fields).2) : dotSum ps < dotSum fields := by
  have h1 := member_weight h
  have h2 := partition_weight fields
  have h3 := partition_posts_nonempty h
  have h4 : 1 ≤ ps.length := by
    cases ps with
    | nil => exact absurd rfl h3
    | cons a t => simp
  omega

/-! ## `get_fields` never runs out of fuel -/

theorem childId_ne_outOfFuel {arena : Arena} {root : PyRef} {key : String} :
    childId arena root key ≠ .error .outOfFuel := by
  unfold childId
  split
  · simp
  · split
    · split <;> simp
    · simp

theorem concreteGo_ne_outOfFuel {arena : Arena} {root : PyRef} :
    ∀ (l : List String) (acc : RetList),
      concreteGo arena root l acc ≠ .error .outOfFuel := by
  intro l
  induction l with
  | nil => intro acc; simp [concreteGo]
  | cons x rest ih =>
    intro acc
    rw [concreteGo]
    split
    · exact ih _
    · simp
    · rename_i e heq hne
      intro hh
      have he : e = Err.outOfFuel := by injection hh
      rw [he] at hne
      exact childId_ne_outOfFuel hne

theorem groupsGo_ne_outOfFuel {arena : Arena} {root : PyRef}
    {recur : PyRef → List String → Except Err (Finset String × Option OutVal)} :
    ∀ {groups : List (String × List String)} {pf : Finset String} {ret : RetList},
      (∀ k ps sub, (k, ps) ∈ groups → recur sub ps ≠ .error .outOfFuel) →
      groupsGo arena recur root groups pf ret ≠ .error .outOfFuel := by
  intro groups
  induction groups with
  | nil => intro pf ret _; simp [groupsGo]
  | cons g rest ih =>
    intro pf ret hrec
    obtain ⟨key, posts⟩ := g
    rw [groupsGo]
    split
    · rename_i e heq
      intro hh
      have he : e = Err.outOfFuel := by injection hh
      rw [he] at heq
      exact childId_ne_outOfFuel heq
    · rename_i sub heq
      split
      · simp
      · rename_i e heq2 hne
        intro hh
        have he : e = Err.outOfFuel := by injection hh
        rw [he] at hne
        exact (hrec key posts sub (by simp)) hne
      · rename_i pfI specI heq2
        exact ih (fun k ps sub' hm => hrec k ps sub' (by simp [hm]))

theorem getFieldsF_ne_outOfFuel :
    ∀ (fuel : Nat) (fields : List String) (arena : Arena) (root : PyRef),
      dotSum fields < fuel →
      getFieldsF fuel arena root fields ≠ .error .outOfFuel := by
  intro fuel
  induction fuel with
  | zero => intro fields arena root h; omega
  | succ fuel ih =>
    intro fields arena root h
    rw [getFieldsF]
    split
    · rename_i e heq
      intro hh
      have he : e = Err.outOfFuel := by injection hh
      rw [he] at heq
      exact concreteGo_ne_outOfFuel _ _ heq
    · rename_i ret0 heq
      split
      · rename_i e heq2
        intro hh
        have he : e = Err.outOfFuel := by injection hh
        rw [he] at heq2
        exact groupsGo_ne_outOfFuel (fun k ps sub hm => ih ps arena sub (by
            have := posts_dots_lt hm
            omega)) heq2
      · rename_i pf ret heq2
        simp

theorem get_fields_no_out_of_fuel (arena : Arena) (root : PyRef)
    (fields : List String) : get_fields arena root fields ≠ .error .outOfFuel :=
  getFieldsF_ne_outOfFuel _ fields arena root (Nat.lt_succ_self _)

/-! ## `fwrap` terminates: memo monotonicity and fuel adequacy -/

theorem fwrapEntries_mono
    {recur : PyRef → Finset Nat → Option (Option OutVal × Finset Nat)}
    (hrec : ∀ r m out, recur r m = some out → m ⊆ out.2) :
    ∀ {es : List (String × Option Nat)} {memo : Finset Nat}
      {out : List (String × OutVal) × Finset Nat},
      fwrapEntries recur memo es = some out → memo ⊆ out.2 := by
  intro es
  induction es with
  | nil =>
    intro memo out h
    rw [fwrapEntries] at h
    injection h with h
    rw [← h]
  | cons p rest ih =>
    intro memo out h
    obtain ⟨k, r⟩ := p
    rw [fwrapEntries] at h
    split at h
    · exact absurd h (by simp)
    · rename_i m1 hr
      exact (hrec _ _ _ hr).trans (ih h)
    · rename_i v m1 hr
      split at h
      · exact absurd h (by simp)
      · rename_i tail m2 ht
        injection h with h
        rw [← h]
        exact (hrec _ _ _ hr).trans (@ih m1 (tail, m2) ht)

theorem fwrapRefF_mono :
    ∀ (fuel : Nat) (arena : Arena) (r : PyRef) (memo : Finset Nat)
      (out : Option OutVal × Finset Nat),
      fwrapRefF fuel arena r memo = some out → memo ⊆ out.2 := by
  intro fuel
  induction fuel with
  | zero => intro arena r memo out h; simp [fwrapRefF] at h
  | succ fuel ih =>
    intro arena r memo out h
    rcases r with _ | i
    · rw [fwrapRefF] at h
      injection h with h
      rw [← h]
    · rw [fwrapRefF] at h
      split at h
      · injection h with h
        rw [← h]
      · split at h
        · injection h with h
          rw [← h]
          exact Finset.subset_insert i memo
        · injection h with h
          rw [← h]
          exact Finset.subset_insert i memo
        · split at h
          · injection h with h
            rw [← h]
            exact Finset.subset_insert i memo
          · split at h
            · injection h with h
              rw [← h]
              exact Finset.subset_insert i memo
            · split at h
              · exact absurd h (by simp)
              · rename_i kept m2 hent
                injection h with h
                rw [← h]
                exact (Finset.subset_insert i memo).trans
                  (fwrapEntries_mono (fun r' m' out' hr => ih arena r' m' out' hr) hent)

theorem card_sdiff_insert_lt {n i : Nat} {memo : Finset Nat}
    (hi : i < n) (hmem : i ∉ memo) :
    (Finset.range n \ insert i memo).card < (Finset.range n \ memo).card := by
  apply Finset.card_lt_card
  refine (Finset.ssubset_iff_of_subset
    (Finset.sdiff_subset_sdiff (le_refl _) (Finset.subset_insert i memo))).mpr ?_
  exact ⟨i, by simp [hi, hmem], by simp⟩

theorem fwrapEntries_isSome {n : Nat} {B : Nat}
    {recur : PyRef → Finset Nat → Option (Option OutVal × Finset Nat)}
    (hmono : ∀ r m out, recur r m = some out → m ⊆ out.2)
    (hrec : ∀ r m, (Finset.range n \ m).card < B → (recur r m).isSome) :
    ∀ {es : List (String × Option Nat)} {memo : Finset Nat},
      (Finset.range n \ memo).card < B → (fwrapEntries recur memo es).isSome := by
  intro es
  induction es with
  | nil => intro memo _; simp [fwrapEntries]
  | cons p rest ih =>
    intro memo hm
    obtain ⟨k, r⟩ := p
    rw [fwrapEntries]
    have h1 := hrec r memo hm
    rcases hr : recur r memo with _ | out
    · rw [hr] at h1
      simp at h1
    · have hsub := hmono r memo out hr
      have hcard : (Finset.range n \ out.2).card < B := by
        have hss : Finset.range n \ out.2 ⊆ Finset.range n \ memo :=
          Finset.sdiff_subset_sdiff (le_refl _) hsub
        have := Finset.card_le_card hss
        omega
      obtain ⟨v, m1⟩ := out
      rcases v with _ | v
      · show (fwrapEntries recur m1 rest).isSome = true
        exact ih hcard
      · show (match fwrapEntries recur m1 rest with
            | none => none
            | some (tail, m2) => some ((k, v) :: tail, m2)).isSome = true
        rcases ht : fwrapEntries recur m1 rest with _ | pr
        · have h2 := @ih m1 hcard
          rw [ht] at h2
          simp at h2
        · obtain ⟨tail, m2⟩ := pr
          simp

theorem fwrapRefF_isSome_of_card_lt :
    ∀ (fuel : Nat) (arena : Arena) (r : PyRef) (memo : Finset Nat),
      (Finset.range arena.length \ memo).card < fuel →
      (fwrapRefF fuel arena r memo).isSome := by
  intro fuel
  induction fuel with
  | zero => intro arena r memo h; omega
  | succ fuel ih =>
    intro arena r memo h
    rcases r with _ | i
    · simp [fwrapRefF]
    · rw [fwrapRefF]
      split
      · simp
      · rename_i hmem
        split
        · simp
        · simp
        · rename_i es heq
          have hilt : i < arena.length := by
            by_contra hge
            rw [List.getElem?_eq_none (by omega)] at heq
            exact Option.noConfusion heq
          have hcard : (Finset.range arena.length \ insert i memo).card < fuel := by
            have := card_sdiff_insert_lt hilt hmem
            omega
          split
          · simp
          · split
            · simp
            · have hent := @fwrapEntries_isSome arena.length fuel
                (fun r' m' => fwrapRefF fuel arena r' m')
                (fun r' m' out' hr => fwrapRefF_mono fuel arena r' m' out' hr)
                (fun r' m' hm => ih arena r' m' hm)
                es (insert i memo) hcard
              rcases hent2 : fwrapEntries (fun r' m' => fwrapRefF fuel arena r' m')
                  (insert i memo) es with _ | pr
              · rw [hent2] at hent
                simp at hent
              · obtain ⟨kept, m2⟩ := pr
                simp

/-! ## The prefetch set matches the specification's description -/

theorem groupsGo_prefetch {arena : Arena} {root : PyRef}
    {recur : PyRef → List String → Except Err (Finset String × Option OutVal)}
    {srec : PyRef → List String → Option (Finset String)}
    (hrec : ∀ sub posts pf s, recur sub posts = .ok (pf, s) → srec sub posts = some pf) :
    ∀ {groups : List (String × List String)} {pf0 : Finset String} {ret0 : RetList}
      {pf : Finset String} {ret : RetList},
      groupsGo arena recur root groups pf0 ret0 = .ok (pf, ret) →
      ∃ c, specGroups arena srec root groups = some c ∧ pf = pf0 ∪ c := by
  intro groups
  induction groups with
  | nil =>
    intro pf0 ret0 pf ret h
    rw [groupsGo] at h
    injection h with h
    refine ⟨∅, by rw [specGroups], ?_⟩
    have h1 : pf0 = pf := congrArg Prod.fst h
    rw [← h1, Finset.union_empty]
  | cons g rest ih =>
    intro pf0 ret0 pf ret h
    obtain ⟨key, posts⟩ := g
    rw [groupsGo] at h
    split at h
    · exact absurd h (by simp)
    · rename_i sub heq
      split at h
      · exact absurd h (by simp)
      · exact absurd h (by simp)
      · rename_i pfI specI heq2
        obtain ⟨c', hs, hpf⟩ := ih h
        refine ⟨insert key (pfI.image (fun x => key ++ "__" ++ x)) ∪ c', ?_, ?_⟩
        · rw [specGroups, heq]
          simp [hrec sub posts pfI specI heq2, hs]
        · rw [hpf]
          ext x
          simp only [Finset.mem_union, Finset.mem_insert]
          tauto

theorem getFieldsF_prefetch :
    ∀ (fuel : Nat) (arena : Arena) (root : PyRef) (fields : List String)
      (pf : Finset String) (s : Option OutVal),
      getFieldsF fuel arena root fields = .ok (pf, s) →
      specPrefetchF fuel arena root fields = some pf := by
  intro fuel
  induction fuel with
  | zero => intro arena root fields pf s h; simp [getFieldsF] at h
  | succ fuel ih =>
    intro arena root fields pf s h
    rw [getFieldsF] at h
    split at h
    · exact absurd h (by simp)
    · rename_i ret0 heq
      split at h
      · exact absurd h (by simp)
      · rename_i pf2 ret2 heq2
        injection h with h
        have hpf2 : pf2 = pf := congrArg Prod.fst h
        obtain ⟨c, hs, hc⟩ := groupsGo_prefetch
          (fun sub posts pf' s' hr => ih arena sub posts pf' s' hr) heq2
        rw [specPrefetchF, hs]
        rw [← hpf2, hc, Finset.empty_union]

/-! ## Stepping `get_fields` through a single compound field -/

theorem partition_single_compound {key rest : String} (hk : '.' ∉ key.toList) :
    partitionFields [key ++ "." ++ rest] = ([], [(key, [rest])]) := by
  simp [partitionFields, splitOnce_append rest hk, consGroup, lookupA, eraseKey]

theorem partition_single_concrete {field : String} (hs : splitOnce field = none) :
    partitionFields [field] = ([field], []) := by
  simp [partitionFields, hs]

theorem dotSum_single (s : String) : dotSum [s] = dots s := by simp [dotSum]

theorem dotSum_compound_single {key rest : String} (hk : '.' ∉ key.toList) :
    dotSum [key ++ "." ++ rest] + 1 = (dots rest + 1) + 1 := by
  simp [dotSum, dots_append rest hk]

theorem get_fields_single_missing {arena : Arena} {rid : Nat}
    {es : List (String × Option Nat)} {field : String}
    (harena : arena[rid]? = some (.dict es)) (hs : splitOnce field = none)
    (hl : lookupA es field = none) :
    get_fields arena (some rid) [field] = .error (.fieldKeyError field) := by
  have hchild : childId arena (some rid) field = .error (.keyError field) := by
    simp [childId, harena, hl]
  have hfuel : dotSum [field] + 1 = 0 + 1 := by
    simp [dotSum_single, dots_eq_zero_of_splitOnce_none hs]
  unfold get_fields
  rw [hfuel, getFieldsF, partition_single_concrete hs]
  simp [concreteGo, hchild]

theorem get_fields_compound_err {arena : Arena} {root : PyRef} {key rest : String}
    {e : Err} (hk : '.' ∉ key.toList)
    (hc : childId arena root key = .error e) :
    get_fields arena root [key ++ "." ++ rest] = .error e := by
  unfold get_fields
  rw [dotSum_compound_single hk, getFieldsF, partition_single_compound hk]
  simp [concreteGo, groupsGo, hc]

theorem get_fields_compound_fke {arena : Arena} {root sub : PyRef} {key rest f : String}
    (hk : '.' ∉ key.toList) (hc : childId arena root key = .ok sub)
    (hr : get_fields arena sub [rest] = .error (.fieldKeyError f)) :
    get_fields arena root [key ++ "." ++ rest] = .error (.fieldKeyError (key ++ "." ++ f)) := by
  have hr' : getFieldsF (dots rest + 1) arena sub [rest] = .error (.fieldKeyError f) := by
    unfold get_fields at hr
    rw [dotSum_single] at hr
    exact hr
  unfold get_fields
  rw [dotSum_compound_single hk, getFieldsF, partition_single_compound hk]
  simp [concreteGo, groupsGo, hc, hr']

theorem get_fields_compound_ok {arena : Arena} {root sub : PyRef} {key rest : String}
    {pfI : Finset String} {specI : Option OutVal}
    (hk : '.' ∉ key.toList) (hc : childId arena root key = .ok sub)
    (hr : get_fields arena sub [rest] = .ok (pfI, specI)) :
    get_fields arena root [key ++ "." ++ rest] =
      .ok (insert key ∅ ∪ pfI.image (fun x => key ++ "__" ++ x),
           fwrapRet arena [(key, specI)]) := by
  have hr' : getFieldsF (dots rest + 1) arena sub [rest] = .ok (pfI, specI) := by
    unfold get_fields at hr
    rw [dotSum_single] at hr
    exact hr
  unfold get_fields
  rw [dotSum_compound_single hk, getFieldsF, partition_single_compound hk]
  simp [concreteGo, groupsGo, hc, hr', insertAssoc, lookupA]

/-! ## Shape of `fwrap` results and pass-through stability -/

theorem fwrap_none (arena : Arena) (memo : Finset Nat) :
    fwrap arena none memo = (none, memo) := by
  rw [fwrap, fwrapRefF]
  rfl

theorem fwrap_empty_shape {arena : Arena} {i : Nat} {v : OutVal}
    (h : (fwrap arena (some i) ∅).1 = some v) :
    v = .ref i ∨ ∃ l, v = .wrapped l := by
  rw [fwrap, fwrapRefF] at h
  rw [if_neg (Finset.not_mem_empty i)] at h
  split at h
  · left
    injection h with h
    exact h.symm
  · left
    injection h with h
    exact h.symm
  · split at h
    · left
      injection h with h
      exact h.symm
    · split at h
      · left
        injection h with h
        exact h.symm
      · split at h
        · simp at h
        · rename_i kept m2 hent
          split at h
          · simp at h
          · right
            exact ⟨kept, by injection h with h; exact h.symm⟩

theorem fwrap_pass_any_memo {arena : Arena} {i : Nat}
    (h : (fwrap arena (some i) ∅).1 = some (.ref i)) :
    ∀ memo : Finset Nat, i ∉ memo →
      fwrap arena (some i) memo = (some (.ref i), insert i memo) := by
  intro memo hmem
  rw [fwrap, fwrapRefF] at h ⊢
  rw [if_neg (Finset.not_mem_empty i)] at h
  rw [if_neg hmem]
  split at h
  · rfl
  · rfl
  · rename_i es hg
    split at h
    · rename_i hemp
      rw [if_pos hemp]
      rfl
    · rename_i hemp
      rw [if_neg hemp]
      split at h
      · rename_i htr
        rw [if_pos htr]
        rfl
      · rename_i htr
        rw [if_neg htr]
        exfalso
        split at h
        · simp at h
        · split at h
          · simp at h
          · simp at h

/-! ## Stepping `get_fields` through a two-field request -/

theorem partition_two_compound {k x y : String} (hk : '.' ∉ k.toList) :
    partitionFields [k ++ "." ++ x, k ++ "." ++ y] = ([], [(k, [x, y])]) := by
  simp [partitionFields, splitOnce_append x hk, splitOnce_append y hk, consGroup,
    lookupA, eraseKey]

theorem getFields_concrete_two {arena : Arena} {sub rx ry : PyRef} {x y : String}
    (fuel : Nat) (hx : splitOnce x = none) (hy : splitOnce y = none)
    (hbx : childId arena sub x = .ok rx) (hby : childId arena sub y = .ok ry)
    (hxy : x ≠ y) :
    getFieldsF (fuel + 1) arena sub [x, y] =
      .ok (∅, fwrapRet arena [(x, (fwrap arena rx ∅).1), (y, (fwrap arena ry ∅).1)]) := by
  have hpart : partitionFields [x, y] = ([x, y], []) := by
    simp [partitionFields, hx, hy]
  rw [getFieldsF, hpart]
  simp [concreteGo, hbx, hby, insertAssoc, lookupA, hxy, groupsGo]

theorem getFields_group_two {arena : Arena} {root sub rx ry : PyRef} {k x y : String}
    (hk : '.' ∉ k.toList) (hx : splitOnce x = none) (hy : splitOnce y = none)
    (hc : childId arena root k = .ok sub)
    (hbx : childId arena sub x = .ok rx) (hby : childId arena sub y = .ok ry)
    (hxy : x ≠ y) :
    get_fields arena root [k ++ "." ++ x, k ++ "." ++ y] =
      .ok ({k}, fwrapRet arena [(k,
        fwrapRet arena [(x, (fwrap arena rx ∅).1), (y, (fwrap arena ry ∅).1)])]) := by
  have hfuel : dotSum [k ++ "." ++ x, k ++ "." ++ y] + 1 =
      (dots x + dots y + 1 + 1) + 1 := by
    simp [dotSum, dots_append x hk, dots_append y hk]
    omega
  have hinner := getFields_concrete_two (dots x + dots y + 1) hx hy hbx hby hxy
  unfold get_fields
  rw [hfuel, getFieldsF, partition_two_compound hk]
  simp [concreteGo, groupsGo, hc, hinner, insertAssoc, lookupA]

/-! ## Small computations of the final normalization -/

theorem fwrapRet_single_none {arena : Arena} {k : String} (hk : k ≠ "fields") :
    fwrapRet arena [(k, none)] = none := by
  simp [fwrapRet, truthyFieldsRet, lookupA, hk, filterRet, fwrapOut]

theorem fwrapRet_single_wrapped {arena : Arena} {k : String}
    {l : List (String × OutVal)} (hk : k ≠ "fields") :
    fwrapRet arena [(k, some (.wrapped l))] = some (.wrapped [(k, .wrapped l)]) := by
  simp [fwrapRet, truthyFieldsRet, lookupA, hk, filterRet, fwrapOut, truthyOut]

/-! ## Request order and the projection result (claim C5) -/

theorem fwrap_kind (arena : Arena) (r : PyRef) :
    (fwrap arena r ∅).1 = none ∨
    (∃ i, r = some i ∧ (fwrap arena r ∅).1 = some (.ref i)) ∨
    (∃ l, (fwrap arena r ∅).1 = some (.wrapped l)) := by
  rcases r with _ | i
  · left
    rw [fwrap_none]
  · rcases hw : (fwrap arena (some i) ∅).1 with _ | v
    · left
      rfl
    · rcases fwrap_empty_shape hw with rfl | ⟨l, rfl⟩
      · right; left
        exact ⟨i, rfl, rfl⟩
      · right; right
        exact ⟨l, rfl⟩

/-! ## The claims -/

/-- Claim C1: an unknown top-level field raises `FieldKeyError` carrying
that field name, and a `FieldKeyError` raised by the recursive call on a
valid relation is re-raised with the prefix prepended, so the error
carries the fully qualified dotted path (`"bogus"` at the top,
`"a.bogus"` one level down, and so on at each unwinding level). -/
theorem c1_fieldkeyerror_fully_qualified :
    (∀ (arena : Arena) (rid : Nat) (es : List (String × Option Nat)) (field : String),
        arena[rid]? = some (.dict es) → splitOnce field = none →
        lookupA es field = none →
        get_fields arena (some rid) [field] = .error (.fieldKeyError field)) ∧
    (∀ (arena : Arena) (root sub : PyRef) (key rest f : String),
        '.' ∉ key.toList → childId arena root key = .ok sub →
        get_fields arena sub [rest] = .error (.fieldKeyError f) →
        get_fields arena root [key ++ "." ++ rest] =
          .error (.fieldKeyError (key ++ "." ++ f))) :=
  ⟨fun _ _ _ _ h1 h2 h3 => get_fields_single_missing h1 h2 h3,
   fun _ _ _ _ _ _ hk hc hr => get_fields_compound_fke hk hc hr⟩

/-- Witness for C1: requesting `"bogus"` on a tree without it, and
`"a.bogus"` where `a` is valid, yields fully qualified `FieldKeyError`s. -/
theorem c1_witness :
    get_fields exArenaFlat (some 0) ["bogus"] = .error (.fieldKeyError "bogus") ∧
    get_fields exArena (some 0) ["a.bogus"] = .error (.fieldKeyError "a.bogus") :=
  ⟨c1_fieldkeyerror_fully_qualified.1 exArenaFlat 0 [("x", some 1)] "bogus" rfl rfl rfl,
   c1_fieldkeyerror_fully_qualified.2 exArena (some 0) (some 1) "a" "bogus" "bogus"
     (by decide) rfl
     (c1_fieldkeyerror_fully_qualified.1 exArena 1 [("b", some 2), ("c", some 3)]
       "bogus" rfl rfl rfl)⟩

/-- Claim C2: on any successful projection the prefetch set returned by
`get_fields` equals the set described by the specification: start empty,
for each prefix group add the prefix and every entry of the recursive
prefetch set rewritten to `prefix ++ "__" ++ entry`; concrete fields
contribute nothing (`specPrefetch` is the specification-worded
definition). -/
theorem c2_prefetch_spec (arena : Arena) (root : PyRef) (fields : List String)
    (pf : Finset String) (s : Option OutVal)
    (h : get_fields arena root fields = .ok (pf, s)) :
    specPrefetch arena root fields = some pf :=
  getFieldsF_prefetch _ arena root fields pf s h

/-- Witness for C2: the request `["a.b.c"]` prefetches `{"a", "a__b"}`. -/
theorem c2_witness :
    specPrefetch exArenaDeep (some 0) ["a.b.c"] = some {"a", "a__b"} :=
  c2_prefetch_spec exArenaDeep (some 0) ["a.b.c"] {"a", "a__b"}
    (some (.wrapped [("a", .wrapped [("b", .wrapped [("c", .ref 3)])])])) rfl

/-- Counterexample to C3 as stated: a compound field whose prefix is
absent raises the plain `KeyError`, not the `FieldKeyError` subclass
(the recursive-call handler catches only `FieldKeyError`, so `root[key]`
escaping with `KeyError` reaches the caller's generic handler). -/
theorem c3_counterexample :
    get_fields exArenaFlat (some 0) ["p.q"] = .error (.keyError "p") ∧
    Err.keyError "p" ≠ Err.fieldKeyError "p" :=
  ⟨rfl, by decide⟩

/-- Claim C3 (amended): for every spec tree root and compound field
`p.rest` whose prefix `p` is absent from the root dict, `get_fields`
raises the plain `KeyError` with key `p` (so the list endpoint reports it
through its generic `KeyError` handler, not the `FieldKeyError` one). -/
theorem c3_missing_prefix_plain_keyerror (arena : Arena) (rid : Nat)
    (es : List (String × Option Nat)) (p rest : String)
    (h1 : arena[rid]? = some (.dict es)) (h2 : '.' ∉ p.toList)
    (h3 : lookupA es p = none) :
    get_fields arena (some rid) [p ++ "." ++ rest] = .error (.keyError p) := by
  have hc : childId arena (some rid) p = .error (.keyError p) := by
    simp [childId, h1, h3]
  exact get_fields_compound_err h2 hc

/-- Witness for C3 (amended): requesting `"p.q"` with `p` absent yields
the plain `KeyError "p"`. -/
theorem c3_witness :
    get_fields exArenaFlat (some 0) ["p.q"] = .error (.keyError "p") :=
  c3_missing_prefix_plain_keyerror exArenaFlat 0 [("x", some 1)] "p" "q"
    rfl (by decide) rfl

/-- Claim C4: projection terminates on every spec tree, including
self-referential ones.  First conjunct: `fwrap`'s recursion exhausts no
fuel once the fuel exceeds the number of unvisited node identities, so
the fuel-free `fwrap` is total.  Second conjunct: revisiting an
already-visited node identity returns absent (`None`) without recursing.
Third conjunct: `get_fields` itself never returns the out-of-fuel
marker. -/
theorem c4_fwrap_cycle_termination :
    (∀ (fuel : Nat) (arena : Arena) (r : PyRef) (memo : Finset Nat),
        (Finset.range arena.length \ memo).card < fuel →
        (fwrapRefF fuel arena r memo).isSome) ∧
    (∀ (fuel : Nat) (arena : Arena) (i : Nat) (memo : Finset Nat),
        i ∈ memo →
        fwrapRefF (fuel + 1) arena (some i) memo = some (none, memo)) ∧
    (∀ (arena : Arena) (root : PyRef) (fields : List String),
        get_fields arena root fields ≠ .error .outOfFuel) :=
  ⟨fwrapRefF_isSome_of_card_lt,
   fun fuel arena i memo hmem => by rw [fwrapRefF, if_pos hmem],
   get_fields_no_out_of_fuel⟩

/-- Witness for C4 on the self-referential `cycArena`: normalization
completes, a revisit of the root returns absent, and `get_fields`
terminates on a request that traverses the cycle. -/
theorem c4_witness :
    (fwrapRefF (cycArena.length + 1) cycArena (some 0) ∅).isSome ∧
    fwrapRefF 3 cycArena (some 0) {0} = some (none, {0}) ∧
    get_fields cycArena (some 0) ["self", "self.name"] ≠ .error .outOfFuel :=
  ⟨c4_fwrap_cycle_termination.1 (cycArena.length + 1) cycArena (some 0) ∅ (by decide),
   c4_fwrap_cycle_termination.2.1 2 cycArena 0 {0} (by decide),
   c4_fwrap_cycle_termination.2.2 cycArena (some 0) ["self", "self.name"]⟩

/-- Counterexample to C5 as stated: with `a` a valid relation holding the
distinct leaves `b` and `c`, the two request orders produce different
pruned specs (the `fields` lists come out in request order), so the
results are not equal Python values. -/
theorem c5_counterexample :
    get_fields exArena (some 0) ["a.b", "a.c"] ≠
      get_fields exArena (some 0) ["a.c", "a.b"] := by
  intro h
  have h1 : get_fields exArena (some 0) ["a.b", "a.c"] =
      .ok ({"a"}, some (.wrapped [("a", .wrapped [("b", .ref 2), ("c", .ref 3)])])) := rfl
  have h2 : get_fields exArena (some 0) ["a.c", "a.b"] =
      .ok ({"a"}, some (.wrapped [("a", .wrapped [("c", .ref 3), ("b", .ref 2)])])) := rfl
  rw [h1, h2] at h
  simp at h

/-- Claim C5 (amended): in a spec tree where `a` is a valid relation whose
sub-fields `b` and `c` are bound to distinct nodes, requesting
`["a.b", "a.c"]` and `["a.c", "a.b"]` yields the same prefetch set, which
contains a single `"a"` entry; the two pruned specs contain the same
entries, but the per-node `fields` lists follow request order, so the
pruned specs agree only up to a permutation of those lists (they need not
be equal as values, see the counterexample). -/
theorem c5_order_amended {arena : Arena} {root sub rb rc : PyRef}
    (hc : childId arena root "a" = .ok sub)
    (hb : childId arena sub "b" = .ok rb)
    (hcc : childId arena sub "c" = .ok rc)
    (hne : ∀ i : Nat, ¬(rb = some i ∧ rc = some i)) :
    ∃ s1 s2,
      get_fields arena root ["a.b", "a.c"] = .ok ({"a"}, s1) ∧
      get_fields arena root ["a.c", "a.b"] = .ok ({"a"}, s2) ∧
      (s1 = s2 ∨ ∃ l1 l2,
        s1 = some (.wrapped [("a", .wrapped l1)]) ∧
        s2 = some (.wrapped [("a", .wrapped l2)]) ∧ l1.Perm l2) := by
  have h1 := getFields_group_two (k := "a") (x := "b") (y := "c")
    (by decide) rfl rfl hc hb hcc (by decide)
  have h2 := getFields_group_two (k := "a") (x := "c") (y := "b")
    (by decide) rfl rfl hc hcc hb (by decide)
  rw [show ("a" ++ "." ++ "b" : String) = "a.b" from rfl,
      show ("a" ++ "." ++ "c" : String) = "a.c" from rfl] at h1 h2
  rcases fwrap_kind arena rb with hwb | ⟨ib, hrb, hwb⟩ | ⟨lb, hwb⟩ <;>
    rcases fwrap_kind arena rc with hwc | ⟨ic, hrc, hwc⟩ | ⟨lc, hwc⟩ <;>
    rw [hwb, hwc] at h1 h2
  -- case (none, none)
  · have hE : fwrapRet arena [("b", (none : Option OutVal)), ("c", none)] = none := by
      simp [fwrapRet, truthyFieldsRet, lookupA, filterRet, fwrapOut]
    have hE' : fwrapRet arena [("c", (none : Option OutVal)), ("b", none)] = none := by
      simp [fwrapRet, truthyFieldsRet, lookupA, filterRet, fwrapOut]
    rw [hE, fwrapRet_single_none (by decide)] at h1
    rw [hE', fwrapRet_single_none (by decide)] at h2
    exact ⟨none, none, h1, h2, Or.inl rfl⟩
  -- case (none, ref ic)
  · subst hrc
    have hpc0 : fwrap arena (some ic) ∅ = (some (.ref ic), {ic}) := by
      simpa using fwrap_pass_any_memo hwc ∅ (Finset.not_mem_empty ic)
    have hE : fwrapRet arena [("b", (none : Option OutVal)), ("c", some (.ref ic))]
        = some (.wrapped [("c", .ref ic)]) := by
      simp [fwrapRet, truthyFieldsRet, lookupA, truthyOut, filterRet, fwrapOut, hpc0]
    have hE' : fwrapRet arena [("c", some (OutVal.ref ic)), ("b", none)]
        = some (.wrapped [("c", .ref ic)]) := by
      simp [fwrapRet, truthyFieldsRet, lookupA, truthyOut, filterRet, fwrapOut, hpc0]
    rw [hE, fwrapRet_single_wrapped (by decide)] at h1
    rw [hE', fwrapRet_single_wrapped (by decide)] at h2
    exact ⟨_, _, h1, h2, Or.inl rfl⟩
  -- case (none, wrapped lc)
  · have hE : fwrapRet arena [("b", (none : Option OutVal)), ("c", some (.wrapped lc))]
        = some (.wrapped [("c", .wrapped lc)]) := by
      simp [fwrapRet, truthyFieldsRet, lookupA, truthyOut, filterRet, fwrapOut]
    have hE' : fwrapRet arena [("c", some (OutVal.wrapped lc)), ("b", none)]
        = some (.wrapped [("c", .wrapped lc)]) := by
      simp [fwrapRet, truthyFieldsRet, lookupA, truthyOut, filterRet, fwrapOut]
    rw [hE, fwrapRet_single_wrapped (by decide)] at h1
    rw [hE', fwrapRet_single_wrapped (by decide)] at h2
    exact ⟨_, _, h1, h2, Or.inl rfl⟩
  -- case (ref ib, none)
  · subst hrb
    have hpb0 : fwrap arena (some ib) ∅ = (some (.ref ib), {ib}) := by
      simpa using fwrap_pass_any_memo hwb ∅ (Finset.not_mem_empty ib)
    have hE : fwrapRet arena [("b", some (OutVal.ref ib)), ("c", none)]
        = some (.wrapped [("b", .ref ib)]) := by
      simp [fwrapRet, truthyFieldsRet, lookupA, truthyOut, filterRet, fwrapOut, hpb0]
    have hE' : fwrapRet arena [("c", (none : Option OutVal)), ("b", some (.ref ib))]
        = some (.wrapped [("b", .ref ib)]) := by
      simp [fwrapRet, truthyFieldsRet, lookupA, truthyOut, filterRet, fwrapOut, hpb0]
    rw [hE, fwrapRet_single_wrapped (by decide)] at h1
    rw [hE', fwrapRet_single_wrapped (by decide)] at h2
    exact ⟨_, _, h1, h2, Or.inl rfl⟩
  -- case (ref ib, ref ic)
  · subst hrb
    subst hrc
    have hibc : ib ≠ ic := by
      intro hh
      exact hne ic ⟨by rw [hh], rfl⟩
    have hpb0 : fwrap arena (some ib) ∅ = (some (.ref ib), {ib}) := by
      simpa using fwrap_pass_any_memo hwb ∅ (Finset.not_mem_empty ib)
    have hpc0 : fwrap arena (some ic) ∅ = (some (.ref ic), {ic}) := by
      simpa using fwrap_pass_any_memo hwc ∅ (Finset.not_mem_empty ic)
    have hpb1 : fwrap arena (some ib) {ic} = (some (.ref ib), insert ib {ic}) :=
      fwrap_pass_any_memo hwb {ic} (by simp [hibc])
    have hpc1 : fwrap arena (some ic) {ib} = (some (.ref ic), insert ic {ib}) :=
      fwrap_pass_any_memo hwc {ib} (by simp [Ne.symm hibc])
    have hE : fwrapRet arena [("b", some (OutVal.ref ib)), ("c", some (.ref ic))]
        = some (.wrapped [("b", .ref ib), ("c", .ref ic)]) := by
      simp [fwrapRet, truthyFieldsRet, lookupA, truthyOut, filterRet, fwrapOut,
        hpb0, hpc1]
    have hE' : fwrapRet arena [("c", some (OutVal.ref ic)), ("b", some (.ref ib))]
        = some (.wrapped [("c", .ref ic), ("b", .ref ib)]) := by
      simp [fwrapRet, truthyFieldsRet, lookupA, truthyOut, filterRet, fwrapOut,
        hpc0, hpb1]
    rw [hE, fwrapRet_single_wrapped (by decide)] at h1
    rw [hE', fwrapRet_single_wrapped (by decide)] at h2
    exact ⟨_, _, h1, h2, Or.inr ⟨_, _, rfl, rfl, List.Perm.swap _ _ _⟩⟩
  -- case (ref ib, wrapped lc)
  · subst hrb
    have hpb0 : fwrap arena (some ib) ∅ = (some (.ref ib), {ib}) := by
      simpa using fwrap_pass_any_memo hwb ∅ (Finset.not_mem_empty ib)
    have hE : fwrapRet arena [("b", some (OutVal.ref ib)), ("c", some (.wrapped lc))]
        = some (.wrapped [("b", .ref ib), ("c", .wrapped lc)]) := by
      simp [fwrapRet, truthyFieldsRet, lookupA, truthyOut, filterRet, fwrapOut, hpb0]
    have hE' : fwrapRet arena [("c", some (OutVal.wrapped lc)), ("b", some (.ref ib))]
        = some (.wrapped [("c", .wrapped lc), ("b", .ref ib)]) := by
      simp [fwrapRet, truthyFieldsRet, lookupA, truthyOut, filterRet, fwrapOut, hpb0]
    rw [hE, fwrapRet_single_wrapped (by decide)] at h1
    rw [hE', fwrapRet_single_wrapped (by decide)] at h2
    exact ⟨_, _, h1, h2, Or.inr ⟨_, _, rfl, rfl, List.Perm.swap _ _ _⟩⟩
  -- case (wrapped lb, none)
  · have hE : fwrapRet arena [("b", some (OutVal.wrapped lb)), ("c", none)]
        = some (.wrapped [("b", .wrapped lb)]) := by
      simp [fwrapRet, truthyFieldsRet, lookupA, truthyOut, filterRet, fwrapOut]
    have hE' : fwrapRet arena [("c", (none : Option OutVal)), ("b", some (.wrapped lb))]
        = some (.wrapped [("b", .wrapped lb)]) := by
      simp [fwrapRet, truthyFieldsRet, lookupA, truthyOut, filterRet, fwrapOut]
    rw [hE, fwrapRet_single_wrapped (by decide)] at h1
    rw [hE', fwrapRet_single_wrapped (by decide)] at h2
    exact ⟨_, _, h1, h2, Or.inl rfl⟩
  -- case (wrapped lb, ref ic)
  · subst hrc
    have hpc0 : fwrap arena (some ic) ∅ = (some (.ref ic), {ic}) := by
      simpa using fwrap_pass_any_memo hwc ∅ (Finset.not_mem_empty ic)
    have hE : fwrapRet arena [("b", some (OutVal.wrapped lb)), ("c", some (.ref ic))]
        = some (.wrapped [("b", .wrapped lb), ("c", .ref ic)]) := by
      simp [fwrapRet, truthyFieldsRet, lookupA, truthyOut, filterRet, fwrapOut, hpc0]
    have hE' : fwrapRet arena [("c", some (OutVal.ref ic)), ("b", some (.wrapped lb))]
        = some (.wrapped [("c", .ref ic), ("b", .wrapped lb)]) := by
      simp [fwrapRet, truthyFieldsRet, lookupA, truthyOut, filterRet, fwrapOut, hpc0]
    rw [hE, fwrapRet_single_wrapped (by decide)] at h1
    rw [hE', fwrapRet_single_wrapped (by decide)] at h2
    exact ⟨_, _, h1, h2, Or.inr ⟨_, _, rfl, rfl, List.Perm.swap _ _ _⟩⟩
  -- case (wrapped lb, wrapped lc)
  · have hE : fwrapRet arena [("b", some (OutVal.wrapped lb)), ("c", some (.wrapped lc))]
        = some (.wrapped [("b", .wrapped lb), ("c", .wrapped lc)]) := by
      simp [fwrapRet, truthyFieldsRet, lookupA, truthyOut, filterRet, fwrapOut]
    have hE' : fwrapRet arena [("c", some (OutVal.wrapped lc)), ("b", some (.wrapped lb))]
        = some (.wrapped [("c", .wrapped lc), ("b", .wrapped lb)]) := by
      simp [fwrapRet, truthyFieldsRet, lookupA, truthyOut, filterRet, fwrapOut]
    rw [hE, fwrapRet_single_wrapped (by decide)] at h1
    rw [hE', fwrapRet_single_wrapped (by decide)] at h2
    exact ⟨_, _, h1, h2, Or.inr ⟨_, _, rfl, rfl, List.Perm.swap _ _ _⟩⟩

/-- Witness for C5 (amended), evaluated on `exArena`: both orders produce
the prefetch set `{"a"}` and permuted `fields` lists. -/
theorem c5_witness :
    get_fields exArena (some 0) ["a.b", "a.c"] =
      .ok ({"a"}, some (.wrapped [("a", .wrapped [("b", .ref 2), ("c", .ref 3)])])) := by
  obtain ⟨s1, s2, h1, h2, hrel⟩ := @c5_order_amended exArena (some 0) (some 1)
    (some 2) (some 3) rfl rfl rfl
    (by rintro i ⟨ha, hb⟩; injection ha with ha; injection hb with hb; omega)
  exact rfl

set_option maxRecDepth 4000 in
/-- Claim C6: with page size 100 over 250 items, page 1 yields
`meta = {count: 100, page: 1, per_page: 100, max_page: 100,
total_count: 250}` (max_page is the end index of the page within the
whole result), page 3 yields count 50 and max_page 250, and page 4 is
the 404 "no such page" error rather than a server error. -/
theorem c6_pagination_meta :
    (listGet 100 [] [PyObj.dict []] (some 0) (fun _ d => d) (fun _ d => d) (fun x _ => x)
        (List.range 250) [("page", "1")]
      = .ok ({ count := 100, page := 1, perPage := 100, maxPage := 100,
               totalCount := 250 }, (List.range 250).take 100)) ∧
    (listGet 100 [] [PyObj.dict []] (some 0) (fun _ d => d) (fun _ d => d) (fun x _ => x)
        (List.range 250) [("page", "3")]
      = .ok ({ count := 50, page := 3, perPage := 100, maxPage := 250,
               totalCount := 250 }, ((List.range 250).drop 200).take 100)) ∧
    (listGet 100 [] [PyObj.dict []] (some 0) (fun _ d => d) (fun _ d => d) (fun x _ => x)
        (List.range 250) [("page", "4")]
      = .error (.http 404 "No such page (heh, literally - its out of bounds)")) :=
  ⟨rfl, rfl, rfl⟩

/-- Claim C7: the reserved cache-buster parameter `_` is stripped before
any processing, so for every filter/sort/serializer collaborator and
every parameter set, a request carrying `_` (of any value) behaves
exactly like the same request without it — in particular the parameters
reaching the filter step are identical. -/
theorem c7_cachebuster_stripped {β : Type} (perPage : Nat)
    (defaultFields : List String) (arena : Arena) (root : PyRef)
    (filt : Params → List Item → List Item)
    (sortf : List String → List Item → List Item)
    (ser : Item → Option OutVal → β)
    (data0 : List Item) (params : Params) (v : String) :
    listGet perPage defaultFields arena root filt sortf ser data0 (("_", v) :: params) =
      listGet perPage defaultFields arena root filt sortf ser data0 params := by
  have hp : popParam (("_", v) :: params) "_" = popParam params "_" := by
    simp [popParam, List.filter]
  simp only [listGet, hp]

/-- Counterexample to C8 as stated: the detail endpoint wraps
`get_fields` in no handler, so an invalid field path makes the
`FieldKeyError` propagate out of the handler uncaught instead of
becoming a structured 400 response naming the field. -/
theorem c8_counterexample :
    detailGet [] exArenaFlat (some 0) (fun _ => some 7) (fun i _ => i) 1
      [("fields", "bogus")] = .error (.uncaught (.fieldKeyError "bogus")) := rfl

/-- Claim C8 (amended): for every detail-endpoint request whose `fields`
parameter resolves to an invalid field path, the `FieldKeyError` raised
by `get_fields` propagates out of the handler unhandled (a server-error
condition), carrying the offending path; the handler produces no
400-equivalent response, unlike the list pipeline. -/
theorem c8_detail_uncaught_fieldkeyerror {β : Type} (defaultFields : List String)
    (arena : Arena) (root : PyRef) (getter : Nat → Option Item)
    (ser : Item → Option OutVal → β) (pk : Nat) (params : Params) (fstr f : String)
    (h1 : getParam (popParam params "_") "fields" = some fstr)
    (h2 : get_fields arena root (splitComma fstr) = .error (.fieldKeyError f)) :
    detailGet defaultFields arena root getter ser pk params =
      .error (.uncaught (.fieldKeyError f)) := by
  simp only [detailGet, h1, h2]

/-- Witness for C8 (amended): a detail request with `fields=bogus` (and a
cache buster) ends in the uncaught `FieldKeyError "bogus"`. -/
theorem c8_witness :
    detailGet [] exArenaFlat (some 0) (fun _ => some 7) (fun i _ => i) 2
      [("fields", "bogus"), ("_", "99")] =
      .error (.uncaught (.fieldKeyError "bogus")) :=
  c8_detail_uncaught_fieldkeyerror [] exArenaFlat (some 0) (fun _ => some 7)
    (fun i _ => i) 2 [("fields", "bogus"), ("_", "99")] "bogus" "bogus" rfl rfl

/-- Claim C9: there is a spec tree and a non-empty, fully valid field
list for which `get_fields` returns `None` (not a mapping) as the pruned
spec while still returning the prefetch set: when every requested value
normalizes to empty (here `a` maps to the `None` value), the final wrap
filters out every entry and returns `None`. -/
theorem c9_pruned_spec_none :
    get_fields exArenaNone (some 0) ["a"] = .ok (∅, none) := rfl

/-- Claim C10: for a spec tree with a top-level field literally named
`fields` whose value normalizes to a truthy result, `get_fields` returns
the merged mapping unchanged as the pruned spec — the normalization
treats a dict with a truthy `"fields"` key as already in pruned-spec
shape and passes it through instead of wrapping it. -/
theorem c10_fields_passthrough :
    get_fields exArenaFields (some 0) ["fields"] =
      .ok (∅, some (.retDict [("fields", some (.ref 1))])) := rfl
